import Mathlib

/-!
Verification development for `react-visibility-persist`.

The library keeps a map from block names to boolean visibility flags
(`VisibilityState = Record<string, boolean>`), lets a provider seed that map
from registered defaults, an explicit `initialState` and (optionally) a
serialized copy in `localStorage`, and exposes a single mutation
`toggleVisibility(name)` plus a per-block reader
`visibilityState[name] ?? defaultVisible`.

The embedding below models the JavaScript object as an association list with
the object's key semantics: lookup finds the (unique) key, and
`{...prev, [name]: v}` replaces the value at an existing key in place or
appends a fresh key at the end.  `JSON.stringify` / `JSON.parse` are modelled
at the character level for the fragment the library persists (objects whose
values are booleans), including JSON string escaping.  `localStorage` is
modelled as an abstract adapter `String → LoadResult`, and every
`getItem` / `setItem` call the component makes is recorded in a trace of
`StorageOp` events.
-/

namespace ReactVisibilityPersist

/-- `VisibilityState = Record<string, boolean>`: a JS object, embedded as an
association list with unique keys (insertion order preserved). -/
abbrev VisibilityState := List (String × Bool)

/-- Property read `M[n]`: `some v` when the key is present, `none` when the
property is absent (JS `undefined`). -/
def getKey : VisibilityState → String → Option Bool
  | [], _ => none
  | (k, v) :: rest, n => if k = n then some v else getKey rest n

/-- Property write `{...M, [n]: v}`: overwrites the value at an existing key
in place, or appends the new key at the end (JS object spread semantics). -/
def setKey : VisibilityState → String → Bool → VisibilityState
  | [], n, v => [(n, v)]
  | (k, w) :: rest, n, v => if k = n then (k, v) :: rest else (k, w) :: setKey rest n v

/-- JS `!x` applied to the result of a property read: `undefined` is falsy, so
`!M[name]` is `true` when the key is absent. -/
def jsNotLookup : Option Bool → Bool
  | some b => !b
  | none => true

/-- `toggleVisibility` from the provider:
`setVisibilityState(prev => ({...prev, [name]: !prev[name]}))`. -/
def toggleVisibility (M : VisibilityState) (name : String) : VisibilityState :=
  setKey M name (jsNotLookup (getKey M name))

/-- The hard-coded fallback used as the default value of the `defaultVisible`
parameter of `createVisibilityBlock(name, defaultVisible = true)`. -/
def defaultVisibleFallback : Bool := true

/-- The per-block reader `useBlockVisibility`:
`visibilityState[name] ?? defaultVisible` (nullish coalescing: the map value
when the key is present, the block's default otherwise). -/
def useBlockVisibility (M : VisibilityState) (name : String) (defaultVisible : Bool) : Bool :=
  (getKey M name).getD defaultVisible

/-- The registration side effect of `createVisibilityBlock`:
`registeredBlocks[name] = defaultVisible`. -/
def createVisibilityBlock (registeredBlocks : VisibilityState) (name : String)
    (defaultVisible : Bool) : VisibilityState :=
  setKey registeredBlocks name defaultVisible

/-- JS object spread `{...a, ...b}`: fold the entries of `b` into `a`,
overwriting per key, keeping first-insertion order. -/
def objectSpread (a b : VisibilityState) : VisibilityState :=
  b.foldl (fun acc kv => setKey acc kv.1 kv.2) a

/-- `mergedInitialState = {...registeredBlocks, ...initialState}` computed by
`VisibilityProvider`. -/
def mergedInitialState (registeredBlocks initialState : VisibilityState) : VisibilityState :=
  objectSpread registeredBlocks initialState

/-! ### JSON serialization (`JSON.stringify` / `JSON.parse`), character level -/

/-- Lowercase hexadecimal digit character for a value below 16. -/
def hexDigitChar (n : Nat) : Char :=
  if n < 10 then Char.ofNat (48 + n) else Char.ofNat (87 + n)

/-- `JSON.stringify`'s quoting of one character of a string: `"` and `\`
get a backslash escape, the named control characters get their short escapes,
any other control character below U+0020 becomes `\u00XX`, everything else is
emitted literally. -/
def escChar (c : Char) : List Char :=
  if c = '"' then ['\\', '"']
  else if c = '\\' then ['\\', '\\']
  else if c = Char.ofNat 8 then ['\\', 'b']
  else if c = Char.ofNat 9 then ['\\', 't']
  else if c = Char.ofNat 10 then ['\\', 'n']
  else if c = Char.ofNat 12 then ['\\', 'f']
  else if c = Char.ofNat 13 then ['\\', 'r']
  else if c.toNat < 32 then
    ['\\', 'u', '0', '0', hexDigitChar (c.toNat / 16), hexDigitChar (c.toNat % 16)]
  else [c]

/-- Escape every character of a string body. -/
def escapeJString : List Char → List Char
  | [] => []
  | c :: rest => escChar c ++ escapeJString rest

/-- A JSON string literal: the escaped body between double quotes. -/
def quoteJString (s : List Char) : List Char :=
  '"' :: (escapeJString s ++ ['"'])

/-- The JSON literals `true` / `false`. -/
def boolLit (b : Bool) : List Char :=
  if b then ['t', 'r', 'u', 'e'] else ['f', 'a', 'l', 's', 'e']

/-- One `"key":value` member of the serialized object. -/
def stringifyEntry (k : String) (b : Bool) : List Char :=
  quoteJString k.toList ++ ':' :: boolLit b

/-- The comma-separated members of the serialized object. -/
def stringifyEntries : VisibilityState → List Char
  | [] => []
  | [(k, b)] => stringifyEntry k b
  | (k, b) :: rest => stringifyEntry k b ++ ',' :: stringifyEntries rest

/-- `JSON.stringify(M)` for a `Record<string, boolean>`: the members wrapped
in braces, with no whitespace. -/
def stringifyVisMap (M : VisibilityState) : List Char :=
  Char.ofNat 123 :: (stringifyEntries M ++ [Char.ofNat 125])

/-- JSON insignificant whitespace. -/
def isJsonWs (c : Char) : Bool :=
  c = ' ' || c = Char.ofNat 9 || c = Char.ofNat 10 || c = Char.ofNat 13

/-- Skip insignificant whitespace. -/
def skipWs : List Char → List Char
  | [] => []
  | c :: rest => if isJsonWs c then skipWs rest else c :: rest

/-- Value of one hexadecimal digit character (`JSON.parse` accepts both
cases in `\uXXXX`). -/
def hexVal (c : Char) : Option Nat :=
  if 48 ≤ c.toNat ∧ c.toNat ≤ 57 then some (c.toNat - 48)
  else if 97 ≤ c.toNat ∧ c.toNat ≤ 102 then some (c.toNat - 87)
  else if 65 ≤ c.toNat ∧ c.toNat ≤ 70 then some (c.toNat - 55)
  else none

/-- Prepend a character to the string part of a partial parse result. -/
def cons1 (c : Char) (r : Option (List Char × List Char)) : Option (List Char × List Char) :=
  r.map fun p => (c :: p.1, p.2)

/-- The single-character escapes accepted by `JSON.parse` after a backslash. -/
def unescapeChar : Char → Option Char
  | '"' => some '"'
  | '\\' => some '\\'
  | '/' => some '/'
  | 'b' => some (Char.ofNat 8)
  | 't' => some (Char.ofNat 9)
  | 'n' => some (Char.ofNat 10)
  | 'f' => some (Char.ofNat 12)
  | 'r' => some (Char.ofNat 13)
  | _ => none

/-- `JSON.parse`'s string body scanner, entered after the opening quote:
returns the decoded body and the input following the closing quote, or `none`
on a malformed literal (unterminated string, bad escape, raw control
character). -/
def parseJStringAux : List Char → Option (List Char × List Char)
  | [] => none
  | c :: rest =>
    if c = '"' then some ([], rest)
    else if c = '\\' then
      match rest with
      | [] => none
      | 'u' :: h1 :: h2 :: h3 :: h4 :: rest2 =>
        match hexVal h1, hexVal h2, hexVal h3, hexVal h4 with
        | some a, some b, some c2, some d2 =>
          cons1 (Char.ofNat (((a * 16 + b) * 16 + c2) * 16 + d2)) (parseJStringAux rest2)
        | _, _, _, _ => none
      | e :: rest2 =>
        match unescapeChar e with
        | some u => cons1 u (parseJStringAux rest2)
        | none => none
    else if c.toNat < 32 then none
    else cons1 c (parseJStringAux rest)

/-- Parse the JSON literals `true` / `false`. -/
def parseJBool : List Char → Option (Bool × List Char)
  | 't' :: 'r' :: 'u' :: 'e' :: rest => some (true, rest)
  | 'f' :: 'a' :: 'l' :: 's' :: 'e' :: rest => some (false, rest)
  | _ => none

/-- Parse the members of a non-empty object, up to and including the closing
brace.  `fuel` bounds the number of members (one unit per member). -/
def parseMembersAux : Nat → List Char → Option (VisibilityState × List Char)
  | 0, _ => none
  | fuel + 1, s =>
    match skipWs s with
    | [] => none
    | c :: rest =>
      if c = '"' then
        match parseJStringAux rest with
        | none => none
        | some (k, rest2) =>
          match skipWs rest2 with
          | [] => none
          | c2 :: rest3 =>
            if c2 = ':' then
              match parseJBool (skipWs rest3) with
              | none => none
              | some (b, rest4) =>
                match skipWs rest4 with
                | [] => none
                | c3 :: rest5 =>
                  if c3 = ',' then
                    match parseMembersAux fuel rest5 with
                    | none => none
                    | some (m, rest6) => some ((String.mk k, b) :: m, rest6)
                  else if c3 = Char.ofNat 125 then some ([(String.mk k, b)], rest5)
                  else none
            else none
      else none

/-- `JSON.parse` restricted to the shape the library persists: an object whose
values are boolean literals.  `none` models a thrown `SyntaxError`. -/
def parseVisMap (s : List Char) : Option VisibilityState :=
  match skipWs s with
  | [] => none
  | c :: rest =>
    if c = Char.ofNat 123 then
      match skipWs rest with
      | [] => none
      | c2 :: rest2 =>
        if c2 = Char.ofNat 125 then
          match skipWs rest2 with
          | [] => some []
          | _ :: _ => none
        else
          match parseMembersAux (rest.length + 1) (c2 :: rest2) with
          | none => none
          | some (m, rest3) =>
            match skipWs rest3 with
            | [] => some m
            | _ :: _ => none
    else none

/-! ### The persistence adapter and the provider lifecycle -/

/-- Outcome of `localStorage.getItem(key)`: the call may throw, return
`null`, or return a stored string. -/
inductive LoadResult
  | throws
  | absent
  | value (s : List Char)
deriving DecidableEq

/-- One adapter call made by the component: `localStorage.getItem(key)` or
`localStorage.setItem(key, content)`. -/
inductive StorageOp
  | load (key : String)
  | save (key : String) (content : List Char)
deriving DecidableEq

/-- The `useState` initializer of `usePersistentState`: with a falsy key
(`null` or `""`) it returns `initialValue` without touching storage;
otherwise it calls `getItem` (recorded in the trace) and uses the parsed
stored value when one exists, falling back to `initialValue` when the key is
missing or when `getItem` / `JSON.parse` throws (the `catch` branch). -/
def usePersistentStateInit : Option String → VisibilityState → (String → LoadResult) →
    VisibilityState × List StorageOp
  | none, initialValue, _ => (initialValue, [])
  | some k, initialValue, storage =>
    if k = "" then (initialValue, [])
    else
      match storage k with
      | LoadResult.throws => (initialValue, [StorageOp.load k])
      | LoadResult.absent => (initialValue, [StorageOp.load k])
      | LoadResult.value s =>
        match parseVisMap s with
        | some m => (m, [StorageOp.load k])
        | none => (initialValue, [StorageOp.load k])

/-- The `useEffect` of `usePersistentState`, run after every render whose
`[key, state]` changed: with a falsy key it does nothing, otherwise it calls
`setItem(key, JSON.stringify(state))`. -/
def usePersistentStateEffect : Option String → VisibilityState → List StorageOp
  | none, _ => []
  | some k, state =>
    if k = "" then [] else [StorageOp.save k (stringifyVisMap state)]

/-- `VisibilityProvider` initialization: merge the registration table with
`initialState`, run the `usePersistentState` initializer on the merge, then
the mount-time effect.  Returns the live starting map and the adapter-call
trace. -/
def providerInit (registeredBlocks initialState : VisibilityState)
    (persistKey : Option String) (storage : String → LoadResult) :
    VisibilityState × List StorageOp :=
  let merged := mergedInitialState registeredBlocks initialState
  let init := usePersistentStateInit persistKey merged storage
  (init.1, init.2 ++ usePersistentStateEffect persistKey init.1)

/-- One toggle step of the mounted provider: the state update plus the
re-run of the persistence effect on the new state. -/
def providerStep (persistKey : Option String) (acc : VisibilityState × List StorageOp)
    (name : String) : VisibilityState × List StorageOp :=
  let st := toggleVisibility acc.1 name
  (st, acc.2 ++ usePersistentStateEffect persistKey st)

/-- A whole provider execution: initialization followed by a sequence of
`toggleVisibility` calls, accumulating the adapter-call trace. -/
def providerTrace (registeredBlocks initialState : VisibilityState)
    (persistKey : Option String) (storage : String → LoadResult)
    (toggles : List String) : VisibilityState × List StorageOp :=
  toggles.foldl (providerStep persistKey)
    (providerInit registeredBlocks initialState persistKey storage)

/-- The context value `{ visibilityState, toggleVisibility }` published by the
provider. -/
structure VisibilityContextType where
  visibilityState : VisibilityState
  toggleVisibility : String → VisibilityState

/-- `useVisibility`: reads the context; `none` models rendering outside any
`VisibilityProvider`, in which case the hook throws the usage error; inside a
provider it returns the context value. -/
def useVisibility (ctx : Option VisibilityContextType) : Except String VisibilityContextType :=
  match ctx with
  | none => Except.error "useVisibility must be used within a VisibilityProvider"
  | some context => Except.ok context

/-- A concrete context value, used to instantiate closed statements. -/
def sampleContext : VisibilityContextType :=
  { visibilityState := [("sidebar", true)]
    toggleVisibility := fun n => toggleVisibility [("sidebar", true)] n }

/-! ### Lemmas about the map operations -/

theorem getKey_setKey_self (M : VisibilityState) (n : String) (v : Bool) :
    getKey (setKey M n v) n = some v := by
  induction M with
  | nil => simp [setKey, getKey]
  | cons kv rest ih =>
    obtain ⟨k, w⟩ := kv
    by_cases h : k = n
    · subst h; simp [setKey, getKey]
    · simp [setKey, getKey, h, ih]

theorem getKey_setKey_ne (M : VisibilityState) (n m : String) (v : Bool) (h : m ≠ n) :
    getKey (setKey M n v) m = getKey M m := by
  induction M with
  | nil => simp [setKey, getKey, Ne.symm h]
  | cons kv rest ih =>
    obtain ⟨k, w⟩ := kv
    by_cases hk : k = n
    · subst hk
      simp [setKey, getKey, Ne.symm h]
    · simp only [setKey, if_neg hk, getKey]
      by_cases hm : k = m
      · simp [hm]
      · simp [hm, ih]

theorem getKey_eq_none_of_not_mem (M : VisibilityState) (n : String)
    (h : n ∉ M.map Prod.fst) : getKey M n = none := by
  induction M with
  | nil => simp [getKey]
  | cons kv rest ih =>
    obtain ⟨k, w⟩ := kv
    simp only [List.map_cons, List.mem_cons] at h
    push_neg at h
    simp [getKey, Ne.symm h.1, ih h.2]

theorem getKey_objectSpread (a b : VisibilityState) (hb : (b.map Prod.fst).Nodup)
    (n : String) :
    getKey (objectSpread a b) n = Option.orElse (getKey b n) (fun _ => getKey a n) := by
  induction b generalizing a with
  | nil => simp [objectSpread, getKey]
  | cons kv b' ih =>
    obtain ⟨k, v⟩ := kv
    simp only [List.map_cons, List.nodup_cons] at hb
    have step : objectSpread a ((k, v) :: b') = objectSpread (setKey a k v) b' := rfl
    rw [step, ih (setKey a k v) hb.2]
    by_cases hk : k = n
    · subst hk
      rw [getKey_eq_none_of_not_mem b' k hb.1]
      simp [getKey, getKey_setKey_self]
    · simp only [getKey, if_neg hk]
      cases hgb : getKey b' n with
      | some v' => simp [Option.orElse]
      | none => simp [Option.orElse, getKey_setKey_ne a k n v (fun hh => hk hh.symm)]

theorem getKey_toggle_self (M : VisibilityState) (n : String) :
    getKey (toggleVisibility M n) n = some (jsNotLookup (getKey M n)) :=
  getKey_setKey_self M n (jsNotLookup (getKey M n))

theorem getKey_toggle_ne (M : VisibilityState) (n m : String) (h : m ≠ n) :
    getKey (toggleVisibility M n) m = getKey M m :=
  getKey_setKey_ne M n m (jsNotLookup (getKey M n)) h

/-! ### Claim theorems -/

/-- C1, counterexample: the claimed flip law
`resolve(toggle(M, n), n) == !resolve(M, n)` fails at the explicit input
`M = {}` (the name absent from the map) with registered default `true`:
the code computes `!M["sidebar"]`, which is `true` because an absent property
is falsy, so the resolved value stays `true` instead of flipping to `false`. -/
theorem toggle_flip_claim_counterexample :
    ¬ (useBlockVisibility (toggleVisibility [] "sidebar") "sidebar" true =
        !(useBlockVisibility ([] : VisibilityState) "sidebar" true)) := by
  decide

/-- C1, amended: `toggleVisibility` writes `!prevState[name]` with an absent
property read as falsy, not `!current(name)` under the default-fallback rule;
the flip law `resolve(toggle(M, n), n) == !resolve(M, n)` and the double-toggle
involution therefore hold exactly when `n` is present in `M` or `n`'s
registered default is `false`. -/
theorem toggle_flip_resolved (M : VisibilityState) (n : String) (d : Bool)
    (h : (getKey M n).isSome = true ∨ d = false) :
    useBlockVisibility (toggleVisibility M n) n d = !(useBlockVisibility M n d) ∧
    useBlockVisibility (toggleVisibility (toggleVisibility M n) n) n d =
      useBlockVisibility M n d := by
  have h1 : useBlockVisibility (toggleVisibility M n) n d = jsNotLookup (getKey M n) := by
    simp [useBlockVisibility, getKey_toggle_self]
  have h2 : useBlockVisibility (toggleVisibility (toggleVisibility M n) n) n d =
      !(jsNotLookup (getKey M n)) := by
    simp [useBlockVisibility, getKey_toggle_self, jsNotLookup]
  cases hg : getKey M n with
  | some b =>
    rw [hg] at h1 h2
    rw [h1, h2]
    simp [useBlockVisibility, hg, jsNotLookup]
  | none =>
    have hd : d = false := by
      rcases h with hs | hd
      · rw [hg] at hs; simp at hs
      · exact hd
    subst hd
    rw [hg] at h1 h2
    rw [h1, h2]
    simp [useBlockVisibility, hg, jsNotLookup]

/-- C1, witness for the amended flip law at a present key. -/
theorem toggle_flip_resolved_witness :
    (useBlockVisibility (toggleVisibility [("sidebar", true)] "sidebar") "sidebar" true =
      !(useBlockVisibility [("sidebar", true)] "sidebar" true)) ∧
    useBlockVisibility
        (toggleVisibility (toggleVisibility [("sidebar", true)] "sidebar") "sidebar")
        "sidebar" true =
      useBlockVisibility [("sidebar", true)] "sidebar" true :=
  toggle_flip_resolved [("sidebar", true)] "sidebar" true (Or.inl (by decide))

/-- C3: the reader resolves by exact precedence: the map value when the key is
present, else the block's registered default, else (for the default parameter)
the hard-coded fallback `true`; an absent key is resolved to the default, never
implicitly to `false`; and registration records exactly the supplied default. -/
theorem useBlockVisibility_precedence (M : VisibilityState) (n : String) (d : Bool)
    (R : VisibilityState) :
    (∀ b, getKey M n = some b → useBlockVisibility M n d = b) ∧
    (getKey M n = none → useBlockVisibility M n d = d) ∧
    (getKey M n = none → useBlockVisibility M n defaultVisibleFallback = true) ∧
    getKey (createVisibilityBlock R n d) n = some d := by
  refine ⟨?_, ?_, ?_, getKey_setKey_self R n d⟩
  · intro b hb; simp [useBlockVisibility, hb]
  · intro hn; simp [useBlockVisibility, hn]
  · intro hn; simp [useBlockVisibility, hn, defaultVisibleFallback]

/-- C3, witness: a present `false` wins over default `true`; an absent key
resolves to the registered default; the unregistered fallback is `true`. -/
theorem useBlockVisibility_precedence_witness :
    useBlockVisibility [("panel", false)] "panel" true = false ∧
    useBlockVisibility [] "panel" false = false ∧
    useBlockVisibility [] "panel" defaultVisibleFallback = true ∧
    getKey (createVisibilityBlock [] "panel" false) "panel" = some false :=
  ⟨(useBlockVisibility_precedence [("panel", false)] "panel" true []).1 false (by decide),
   (useBlockVisibility_precedence [] "panel" false []).2.1 (by decide),
   (useBlockVisibility_precedence [] "panel" false []).2.2.1 (by decide),
   (useBlockVisibility_precedence [] "panel" false []).2.2.2⟩

/-- C4: toggling `n` touches no map entry other than `n` and leaves the
resolved value of every other name `m ≠ n` unchanged. -/
theorem toggleVisibility_frame (M : VisibilityState) (n m : String) (d : Bool)
    (h : m ≠ n) :
    getKey (toggleVisibility M n) m = getKey M m ∧
    useBlockVisibility (toggleVisibility M n) m d = useBlockVisibility M m d := by
  have hg := getKey_toggle_ne M n m h
  exact ⟨hg, by simp [useBlockVisibility, hg]⟩

/-- C4, witness at a concrete two-entry map. -/
theorem toggleVisibility_frame_witness :
    getKey (toggleVisibility [("a", true), ("b", false)] "a") "b" =
      getKey [("a", true), ("b", false)] "b" ∧
    useBlockVisibility (toggleVisibility [("a", true), ("b", false)] "a") "b" true =
      useBlockVisibility [("a", true), ("b", false)] "b" true :=
  toggleVisibility_frame [("a", true), ("b", false)] "a" "b" true (by decide)

/-- C5: `useVisibility` signals the usage error exactly when invoked outside
an initialized provider scope (the context is unset), and inside a scope it
returns the context's live map and toggle. -/
theorem useVisibility_scope (ctx : Option VisibilityContextType) :
    ((∃ e, useVisibility ctx = Except.error e) ↔ ctx = none) ∧
    (∀ c, ctx = some c → useVisibility ctx = Except.ok c) := by
  constructor
  · constructor
    · rintro ⟨e, he⟩
      cases ctx with
      | none => rfl
      | some c => simp [useVisibility] at he
    · intro h; subst h; exact ⟨_, rfl⟩
  · intro c h; subst h; rfl

/-- C5, witness: inside a concrete provider scope the accessor succeeds. -/
theorem useVisibility_scope_witness :
    useVisibility (some sampleContext) = Except.ok sampleContext :=
  (useVisibility_scope (some sampleContext)).2 sampleContext rfl

theorem usePersistentStateEffect_none (st : VisibilityState) :
    usePersistentStateEffect none st = [] := rfl

theorem usePersistentStateEffect_emptyKey (st : VisibilityState) :
    usePersistentStateEffect (some "") st = [] := by
  simp [usePersistentStateEffect]

theorem foldl_providerStep_ops_nil (key : Option String)
    (hkey : ∀ st, usePersistentStateEffect key st = []) :
    ∀ (toggles : List String) (acc : VisibilityState × List StorageOp), acc.2 = [] →
      (toggles.foldl (providerStep key) acc).2 = [] := by
  intro toggles
  induction toggles with
  | nil => intro acc hacc; exact hacc
  | cons t ts ih =>
    intro acc hacc
    simp only [List.foldl_cons]
    exact ih _ (by simp [providerStep, hkey, hacc])

/-- C2: the provider's starting map is `registeredBlocks` merged with
`initialState`, the latter winning per key; with no persistence, or a
persist key with nothing stored under it, that merge is the starting map;
and a stored map that parses under the persist key becomes the starting map
in its entirety, overriding the merge. -/
theorem providerInit_startingMap (R I : VisibilityState) (key : Option String)
    (storage : String → LoadResult) (hI : (I.map Prod.fst).Nodup) :
    (∀ n, getKey (mergedInitialState R I) n =
        Option.orElse (getKey I n) (fun _ => getKey R n)) ∧
    (providerInit R I none storage).1 = mergedInitialState R I ∧
    (∀ k, key = some k → k ≠ "" → storage k = LoadResult.absent →
        (providerInit R I key storage).1 = mergedInitialState R I) ∧
    (∀ k s m, key = some k → k ≠ "" → storage k = LoadResult.value s →
        parseVisMap s = some m → (providerInit R I key storage).1 = m) := by
  refine ⟨fun n => getKey_objectSpread R I hI n, rfl, ?_, ?_⟩
  · rintro k rfl hk habs
    simp [providerInit, usePersistentStateInit, hk, habs]
  · rintro k s m rfl hk hval hparse
    simp [providerInit, usePersistentStateInit, hk, hval, hparse]

/-- Adapter state for the spec's persistence scenario: the key `"k"` holds
the serialized object mapping `"panel"` to `false`. -/
def storedPanelFalse : String → LoadResult :=
  fun k =>
    if k = "k" then LoadResult.value (("\x7b\"panel\":false\x7d").toList)
    else LoadResult.absent

/-- C2, witness: with `"panel"` registered `true` and `{"panel": false}`
already stored under `"k"`, the starting map is the stored map. -/
theorem providerInit_startingMap_witness :
    (providerInit [("panel", true)] [] (some "k") storedPanelFalse).1 =
      [("panel", false)] :=
  (providerInit_startingMap [("panel", true)] [] (some "k") storedPanelFalse
      (by decide)).2.2.2
    "k" (("\x7b\"panel\":false\x7d").toList) [("panel", false)] rfl (by decide) rfl
    (by decide)

/-- C6: when `getItem` throws, or the stored string does not parse, the
initializer returns the computed default map; the model is a total function,
so the failure is absorbed by the `catch` and never propagates. -/
theorem usePersistentStateInit_load_failure (k : String) (init : VisibilityState)
    (storage : String → LoadResult) (hk : k ≠ "")
    (h : storage k = LoadResult.throws ∨
        ∃ s, storage k = LoadResult.value s ∧ parseVisMap s = none) :
    (usePersistentStateInit (some k) init storage).1 = init := by
  rcases h with hthrow | ⟨s, hval, hparse⟩
  · simp [usePersistentStateInit, hk, hthrow]
  · simp [usePersistentStateInit, hk, hval, hparse]

/-- C6, witness: a throwing adapter leaves the computed defaults in place. -/
theorem usePersistentStateInit_load_failure_witness :
    (usePersistentStateInit (some "k") [("a", true)] (fun _ => LoadResult.throws)).1 =
      [("a", true)] :=
  usePersistentStateInit_load_failure "k" [("a", true)] (fun _ => LoadResult.throws)
    (by decide) (Or.inl rfl)

/-- C7: with `persistKey` absent/null, the whole execution — initialization
and every subsequent toggle — performs no `getItem` or `setItem` call. -/
theorem no_persistKey_no_storage_calls (R I : VisibilityState)
    (storage : String → LoadResult) (toggles : List String) :
    (providerTrace R I none storage toggles).2 = [] :=
  foldl_providerStep_ops_nil none usePersistentStateEffect_none toggles
    (providerInit R I none storage) rfl

/-- C9: with a non-empty persist key the initialization trace is exactly one
`getItem` followed by one `setItem` that writes the serialized starting map —
the starting map is saved back before any toggle occurs. -/
theorem persisted_initial_save (R I : VisibilityState) (k : String)
    (storage : String → LoadResult) (hk : k ≠ "") :
    (providerInit R I (some k) storage).2 =
      [StorageOp.load k,
       StorageOp.save k (stringifyVisMap (providerInit R I (some k) storage).1)] := by
  cases hs : storage k with
  | throws => simp [providerInit, usePersistentStateInit, usePersistentStateEffect, hk, hs]
  | absent => simp [providerInit, usePersistentStateInit, usePersistentStateEffect, hk, hs]
  | value s =>
    cases hp : parseVisMap s with
    | none =>
      simp [providerInit, usePersistentStateInit, usePersistentStateEffect, hk, hs, hp]
    | some m =>
      simp [providerInit, usePersistentStateInit, usePersistentStateEffect, hk, hs, hp]

/-- C9, witness: a fresh provider under key `"k"` loads, then saves its
starting map. -/
theorem persisted_initial_save_witness :
    (providerInit [] [] (some "k") (fun _ => LoadResult.absent)).2 =
      [StorageOp.load "k",
       StorageOp.save "k"
         (stringifyVisMap (providerInit [] [] (some "k") (fun _ => LoadResult.absent)).1)] :=
  persisted_initial_save [] [] "k" (fun _ => LoadResult.absent) (by decide)

/-- C10: the empty-string persist key is falsy in the `if (!key)` guards, so
it disables persistence exactly like `null`: the trace stays empty, the
starting map is the computed merge, and the whole execution coincides with
the `persistKey = null` execution. -/
theorem emptyKey_disables_persistence (R I : VisibilityState)
    (storage : String → LoadResult) (toggles : List String) :
    (providerTrace R I (some "") storage toggles).2 = [] ∧
    (providerInit R I (some "") storage).1 = mergedInitialState R I ∧
    providerTrace R I (some "") storage toggles =
      providerTrace R I none storage toggles := by
  have hinit : providerInit R I (some "") storage = providerInit R I none storage := by
    simp [providerInit, usePersistentStateInit, usePersistentStateEffect]
  refine ⟨?_, ?_, ?_⟩
  · exact foldl_providerStep_ops_nil (some "") usePersistentStateEffect_emptyKey toggles
      (providerInit R I (some "") storage) (by rw [hinit]; rfl)
  · rw [hinit]; rfl
  · unfold providerTrace
    rw [hinit]
    exact List.foldl_ext (providerStep (some "")) (providerStep none)
      (providerInit R I none storage)
      (fun acc t _ => by
        simp [providerStep, usePersistentStateEffect_emptyKey,
          usePersistentStateEffect_none])

/-! ### JSON round-trip -/

theorem parseJStringAux_escChar (c : Char) (L : List Char) :
    parseJStringAux (escChar c ++ L) = cons1 c (parseJStringAux L) := by
  by_cases h1 : c = '"'
  · subst h1; simp [escChar, parseJStringAux, unescapeChar]
  by_cases h2 : c = '\\'
  · subst h2; simp [escChar, parseJStringAux, unescapeChar]
  by_cases h8 : c.toNat < 32
  · have hofn := Char.ofNat_toNat c
    generalize hg : c.toNat = m at h8 hofn
    subst hofn
    interval_cases m <;>
      simp [escChar, parseJStringAux, unescapeChar, hexDigitChar, hexVal]
  · have h3 : ¬ c = Char.ofNat 8 := fun hh => h8 (by rw [hh]; decide)
    have h4 : ¬ c = Char.ofNat 9 := fun hh => h8 (by rw [hh]; decide)
    have h5 : ¬ c = Char.ofNat 10 := fun hh => h8 (by rw [hh]; decide)
    have h6 : ¬ c = Char.ofNat 12 := fun hh => h8 (by rw [hh]; decide)
    have h7 : ¬ c = Char.ofNat 13 := fun hh => h8 (by rw [hh]; decide)
    simp only [escChar, if_neg h1, if_neg h2, if_neg h3, if_neg h4, if_neg h5, if_neg h6,
      if_neg h7, if_neg h8, List.cons_append, List.nil_append]
    rw [parseJStringAux.eq_def]
    dsimp only
    rw [if_neg h1, if_neg h2, if_neg h8]

theorem parseJStringAux_escape (s rest : List Char) :
    parseJStringAux (escapeJString s ++ '"' :: rest) = some (s, rest) := by
  induction s with
  | nil =>
    simp only [escapeJString, List.nil_append]
    rw [parseJStringAux.eq_def]
    dsimp only
    rw [if_pos rfl]
  | cons c s ih =>
    have h := parseJStringAux_escChar c (escapeJString s ++ '"' :: rest)
    simp only [escapeJString, List.append_assoc, List.cons_append]
    rw [h, ih]
    rfl

theorem parseJBool_boolLit (b : Bool) (rest : List Char) :
    parseJBool (boolLit b ++ rest) = some (b, rest) := by
  cases b <;> simp [boolLit, parseJBool]

theorem skipWs_cons_of_not_ws (c : Char) (l : List Char) (h : isJsonWs c = false) :
    skipWs (c :: l) = c :: l := by
  rw [skipWs, h]
  simp

theorem skipWs_boolLit (b : Bool) (tail : List Char) :
    skipWs (boolLit b ++ tail) = boolLit b ++ tail := by
  cases b <;> simp only [boolLit, Bool.if_true_left] <;>
    exact skipWs_cons_of_not_ws _ _ (by decide)

theorem string_mk_toList (s : String) : String.mk s.toList = s := rfl

theorem string_mk_data (s : String) : String.mk s.data = s := rfl

theorem skipWs_quote (l : List Char) : skipWs ('"' :: l) = '"' :: l :=
  skipWs_cons_of_not_ws _ _ (by decide)

theorem skipWs_colon (l : List Char) : skipWs (':' :: l) = ':' :: l :=
  skipWs_cons_of_not_ws _ _ (by decide)

theorem skipWs_comma (l : List Char) : skipWs (',' :: l) = ',' :: l :=
  skipWs_cons_of_not_ws _ _ (by decide)

theorem skipWs_rbrace (l : List Char) : skipWs (Char.ofNat 125 :: l) = Char.ofNat 125 :: l :=
  skipWs_cons_of_not_ws _ _ (by decide)

theorem skipWs_lbrace (l : List Char) : skipWs (Char.ofNat 123 :: l) = Char.ofNat 123 :: l :=
  skipWs_cons_of_not_ws _ _ (by decide)

theorem parseMembersAux_entry (f : Nat) (k : String) (b : Bool) (tail : List Char) :
    parseMembersAux (f + 1) (stringifyEntry k b ++ tail) =
      (match skipWs tail with
       | [] => none
       | c3 :: rest5 =>
         if c3 = ',' then
           match parseMembersAux f rest5 with
           | none => none
           | some (m, rest6) => some ((k, b) :: m, rest6)
         else if c3 = Char.ofNat 125 then some ([(k, b)], rest5)
         else none) := by
  have hshape : stringifyEntry k b ++ tail =
      '"' :: (escapeJString k.toList ++ '"' :: (':' :: (boolLit b ++ tail))) := by
    simp [stringifyEntry, quoteJString, List.append_assoc]
  rw [hshape, parseMembersAux.eq_def]
  simp only [skipWs_quote, parseJStringAux_escape, skipWs_colon, skipWs_boolLit,
    parseJBool_boolLit, string_mk_toList, string_mk_data]
  simp

theorem parseMembersAux_entry_comma (f : Nat) (k : String) (b : Bool) (X : List Char) :
    parseMembersAux (f + 1) (stringifyEntry k b ++ ',' :: X) =
      (match parseMembersAux f X with
       | none => none
       | some (m, rest6) => some ((k, b) :: m, rest6)) := by
  rw [parseMembersAux_entry, skipWs_comma]
  simp

theorem parseMembersAux_entry_rbrace (f : Nat) (k : String) (b : Bool) (X : List Char) :
    parseMembersAux (f + 1) (stringifyEntry k b ++ Char.ofNat 125 :: X) = some ([(k, b)], X) := by
  rw [parseMembersAux_entry, skipWs_rbrace]
  simp

theorem parseMembersAux_stringifyEntries (M : VisibilityState) :
    ∀ (fuel : Nat) (rest : List Char), M ≠ [] → M.length ≤ fuel →
      parseMembersAux fuel (stringifyEntries M ++ Char.ofNat 125 :: rest) = some (M, rest) := by
  induction M with
  | nil => intro fuel rest h _; exact absurd rfl h
  | cons kb M' ih =>
    obtain ⟨k, b⟩ := kb
    intro fuel rest _ hlen
    cases fuel with
    | zero => simp at hlen
    | succ f =>
      cases M' with
      | nil =>
        have hE : stringifyEntries [(k, b)] ++ Char.ofNat 125 :: rest =
            stringifyEntry k b ++ Char.ofNat 125 :: rest := rfl
        rw [hE, parseMembersAux_entry_rbrace]
      | cons kb2 M'' =>
        have hE : stringifyEntries ((k, b) :: kb2 :: M'') ++ Char.ofNat 125 :: rest =
            stringifyEntry k b ++
              (',' :: (stringifyEntries (kb2 :: M'') ++ Char.ofNat 125 :: rest)) := by
          simp [stringifyEntries, List.append_assoc]
        have hfuel : (kb2 :: M'').length ≤ f := by
          simp only [List.length_cons] at hlen ⊢
          omega
        rw [hE, parseMembersAux_entry_comma, ih f rest (by simp) hfuel]

theorem stringifyEntries_length (M : VisibilityState) :
    M.length ≤ (stringifyEntries M).length := by
  induction M with
  | nil => simp [stringifyEntries]
  | cons kb M' ih =>
    obtain ⟨k, b⟩ := kb
    cases M' with
    | nil =>
      simp [stringifyEntries, stringifyEntry, quoteJString]
    | cons kb2 M'' =>
      have hE : stringifyEntries ((k, b) :: kb2 :: M'') =
          stringifyEntry k b ++ ',' :: stringifyEntries (kb2 :: M'') := rfl
      rw [hE]
      simp only [List.length_append, List.length_cons]
      simp only [List.length_cons] at ih ⊢
      omega

theorem stringifyEntries_head (M : VisibilityState) (h : M ≠ []) :
    ∃ t, stringifyEntries M = '"' :: t := by
  cases M with
  | nil => exact absurd rfl h
  | cons kb M' =>
    obtain ⟨k, b⟩ := kb
    cases M' with
    | nil => exact ⟨_, rfl⟩
    | cons kb2 M'' => exact ⟨_, rfl⟩

/-- C8: serialization round-trip: for every visibility map (all values
booleans), `JSON.parse(JSON.stringify(M))` recovers `M` exactly, at the
character level and including JSON string escaping of the keys. -/
theorem parseVisMap_stringifyVisMap (M : VisibilityState) :
    parseVisMap (stringifyVisMap M) = some M := by
  cases M with
  | nil => decide
  | cons kb M' =>
    obtain ⟨t, ht⟩ := stringifyEntries_head (kb :: M') (by simp)
    have hshape : stringifyVisMap (kb :: M') =
        Char.ofNat 123 :: ('"' :: (t ++ [Char.ofNat 125])) := by
      rw [stringifyVisMap, ht]
      simp
    rw [hshape]
    unfold parseVisMap
    rw [skipWs_lbrace]
    dsimp only
    rw [if_pos rfl, skipWs_quote]
    dsimp only
    rw [if_neg (by decide)]
    have hback : '"' :: (t ++ [Char.ofNat 125]) =
        stringifyEntries (kb :: M') ++ Char.ofNat 125 :: [] := by
      rw [ht]
      simp
    rw [hback]
    rw [parseMembersAux_stringifyEntries (kb :: M') _ [] (by simp) ?hf]
    case hf =>
      have hlen := stringifyEntries_length (kb :: M')
      have hc : (stringifyEntries (kb :: M')).length = t.length + 1 := by
        rw [ht]
        simp
      simp only [List.length_cons, List.length_append] at hlen hc ⊢
      omega
    rfl

end ReactVisibilityPersist
